import Mathlib

/-!
Verification of the circular-array data structure implemented in
`src/grscheller/circular_array/ca.py` (class `CA`).

The Python object state `(_list, _count, _capacity, _front, _rear)` is
embedded as the structure `CAState`.  A storage slot holding `None` in
Python is `none : Option D`; a slot holding a live element `d` is `some d`.
Mutating methods become state-passing functions; methods that raise become
functions returning an error value (the error constructors record which of
the distinct Python exception messages was raised).  Python's `%` on
nonnegative ints agrees with `Nat.mod`; where Python computes `(x - 1) %
capacity` on a nonnegative `x` we write `(x + capacity - 1) % capacity`,
which is equal for every `0 ≤ x` when `capacity > 0`.  Index arguments are
Python ints and are embedded as `Int`, with Python's `%` on `Int` being
`Int.emod` (both return a result in `[0, m)` for `m > 0`).
-/

/-- State of a `CA` object: the fields `_list`, `_count`, `_capacity`,
`_front`, `_rear` of `src/grscheller/circular_array/ca.py`. -/
structure CAState (D : Type) where
  list : List (Option D)
  count : Nat
  capacity : Nat
  front : Nat
  rear : Nat
deriving Repr, DecidableEq

variable {D : Type}

/-- Constructor `CA.__init__(*ds)`:
`self._list = [None] + list(ds) + [None]`, `capacity = len(self._list)`,
`count = capacity - 2`; `front/rear = 0/1` when `capacity == 2`, else
`front = 1`, `rear = capacity - 2`. -/
def CAinit (ds : List D) : CAState D :=
  let lst : List (Option D) := [none] ++ ds.map some ++ [none]
  let capacity := lst.length
  { list := lst
    count := capacity - 2
    capacity := capacity
    front := if capacity = 2 then 0 else 1
    rear := if capacity = 2 then 1 else capacity - 2 }

/-- The physical slot read `self._list[(self._front + i) % self._capacity]`
for a natural-number offset `i` (the expression `__getitem__` evaluates on
the in-range branch). -/
def elemAt (s : CAState D) (i : Nat) : Option D :=
  s.list.getD ((s.front + i) % s.capacity) none

/-- The logical content of the buffer: the `count` slots stepping forward
from `front` (mod `capacity`), in logical front-to-back order. -/
def toList (s : CAState D) : List (Option D) :=
  (List.range s.count).map (fun i => elemAt s i)

/-- The ring-buffer invariants of spec §3 (as listed in claim C1), together
with the basic well-formedness facts `len(_list) = capacity` and
`front, rear < capacity` that Python maintains implicitly. -/
def RingInv (s : CAState D) : Prop :=
  s.list.length = s.capacity ∧
  2 ≤ s.capacity ∧
  s.count ≤ s.capacity ∧
  s.front < s.capacity ∧
  s.rear < s.capacity ∧
  (0 < s.count →
    s.rear = (s.front + s.count - 1) % s.capacity ∧
    (∀ i, i < s.count → elemAt s i ≠ none) ∧
    (∀ j, j < s.capacity → (∀ i, i < s.count → j ≠ (s.front + i) % s.capacity) →
      s.list.getD j none = none)) ∧
  (s.count = 0 → ∀ j, j < s.capacity → s.list.getD j none = none)

instance (s : CAState D) [DecidableEq D] : Decidable (RingInv s) := by
  unfold RingInv; infer_instance

instance {E A : Type} [DecidableEq E] [DecidableEq A] : DecidableEq (Except E A) := fun x y =>
  match x, y with
  | .ok a, .ok b => if h : a = b then .isTrue (by rw [h]) else .isFalse (by simp [h])
  | .ok _, .error _ => .isFalse (by simp)
  | .error _, .ok _ => .isFalse (by simp)
  | .error e, .error f => if h : e = f then .isTrue (by rw [h]) else .isFalse (by simp [h])

/-- Errors raised by `CA` methods.  Each constructor corresponds to one of
the distinct Python exception messages:
`outOfBounds i low high` is the IndexError
"Out of bounds: index = {i} not between {low} and {high} ...";
`emptyAccess` is the IndexError
"Trying to get/set value from an empty CA.";
`emptyPop` is the ValueError
"Method pop_front_unsafe/pop_rear_unsafe called on an empty CA";
`emptyFold` is the ValueError
"Method foldL called on an empty CA without an initial value.". -/
inductive CAErr where
  | outOfBounds (index low high : Int)
  | emptyAccess
  | emptyPop
  | emptyFold
deriving Repr, DecidableEq

/-- `CA.__getitem__(index)`.  Returns the raw storage slot (the Python code
returns `cast(_D, slot)`, which at runtime is the slot's value). -/
def getItem (s : CAState D) (index : Int) : Except CAErr (Option D) :=
  let cnt : Int := s.count
  if 0 ≤ index ∧ index < cnt then
    .ok (s.list.getD (((s.front : Int) + index) % (s.capacity : Int)).toNat none)
  else if -cnt ≤ index ∧ index < 0 then
    .ok (s.list.getD (((s.front : Int) + cnt + index) % (s.capacity : Int)).toNat none)
  else if 0 < cnt then
    .error (.outOfBounds index (-cnt) (cnt - 1))
  else
    .error .emptyAccess

/-- `CA.__setitem__(index, value)`.  Returns the state after the call and
`none`, or the unchanged state and the raised error. -/
def setItem (s : CAState D) (index : Int) (value : D) : CAState D × Option CAErr :=
  let cnt : Int := s.count
  if 0 ≤ index ∧ index < cnt then
    ({ s with list := s.list.set (((s.front : Int) + index) % (s.capacity : Int)).toNat (some value) },
     none)
  else if -cnt ≤ index ∧ index < 0 then
    ({ s with list := s.list.set (((s.front : Int) + cnt + index) % (s.capacity : Int)).toNat (some value) },
     none)
  else if 0 < cnt then
    (s, some (.outOfBounds index (-cnt) (cnt - 1)))
  else
    (s, some .emptyAccess)

/-- `CA.double()`: append `capacity` empty slots when `front <= rear`,
otherwise insert them at position `front` and shift `front` by the old
capacity; capacity doubles in both cases. -/
def double (s : CAState D) : CAState D :=
  if s.front ≤ s.rear then
    { s with list := s.list ++ List.replicate s.capacity none
             capacity := 2 * s.capacity }
  else
    { s with list := s.list.take s.front ++ List.replicate s.capacity none ++ s.list.drop s.front
             front := s.front + s.capacity
             capacity := 2 * s.capacity }

/-- One step of `CA.push_rear` (the loop body for a single pushed value):
grow when full, then advance `rear` and write the value there. -/
def push_rear (s : CAState D) (d : D) : CAState D :=
  let s1 := if s.count = s.capacity then double s else s
  let rear := (s1.rear + 1) % s1.capacity
  { s1 with rear := rear, list := s1.list.set rear (some d), count := s1.count + 1 }

/-- One step of `CA.push_front` (the loop body for a single pushed value).
Python computes `(front - 1) % capacity`; for `front ≥ 0` this equals
`(front + capacity - 1) % capacity`. -/
def push_front (s : CAState D) (d : D) : CAState D :=
  let s1 := if s.count = s.capacity then double s else s
  let front := (s1.front + s1.capacity - 1) % s1.capacity
  { s1 with front := front, list := s1.list.set front (some d), count := s1.count + 1 }

/-- `CA.pop_front_unsafe()`: when nonempty, return the slot at `front`,
clear it, advance `front`, decrement `count`; when empty, raise and leave
the state untouched. -/
def pop_front_one (s : CAState D) : Except CAErr (Option D) × CAState D :=
  if 0 < s.count then
    (.ok (s.list.getD s.front none),
     { s with list := s.list.set s.front none
              front := (s.front + 1) % s.capacity
              count := s.count - 1 })
  else
    (.error .emptyPop, s)

/-- `CA.pop_rear_unsafe()`: when nonempty, return the slot at `rear`,
clear it, retreat `rear` (Python `(rear - 1) % capacity`, written
`(rear + capacity - 1) % capacity`), decrement `count`; when empty, raise
and leave the state untouched. -/
def pop_rear_one (s : CAState D) : Except CAErr (Option D) × CAState D :=
  if 0 < s.count then
    (.ok (s.list.getD s.rear none),
     { s with list := s.list.set s.rear none
              rear := (s.rear + s.capacity - 1) % s.capacity
              count := s.count - 1 })
  else
    (.error .emptyPop, s)

/-- `CA.compact()`: rebuild storage as one sentinel slot, the live run
relinearized, and one sentinel slot (cases on `count` as in the source). -/
def compact (s : CAState D) : CAState D :=
  match s.count with
  | 0 => { list := [none, none], count := s.count, capacity := 2, front := 0, rear := 1 }
  | 1 => { list := [none, s.list.getD s.front none, none], count := s.count, capacity := 3,
           front := 1, rear := 1 }
  | _ =>
    if s.front ≤ s.rear then
      { list := [none] ++ ((s.list.drop s.front).take (s.rear + 1 - s.front)) ++ [none]
        count := s.count, capacity := s.count + 2, front := 1, rear := s.count }
    else
      { list := [none] ++ (s.list.drop s.front ++ s.list.take (s.rear + 1)) ++ [none]
        count := s.count, capacity := s.count + 2, front := 1, rear := s.count }

/-- `CA.empty()`: `self._list, self._front, self._rear =
[None]*capacity, 0, capacity-1`.  Note the source does NOT reset
`self._count`. -/
def empty (s : CAState D) : CAState D :=
  { s with list := List.replicate s.capacity none, front := 0, rear := s.capacity - 1 }

/-- `CA.resize(newSize)`: compact, then extend storage at the tail when
`newSize > capacity`; in that case, when the buffer is empty, `rear` is set
to `capacity - 1` where `capacity` is the Python local holding the
post-compaction capacity. -/
def resize (s : CAState D) (newSize : Int) : CAState D :=
  let s1 := compact s
  let capacity := s1.capacity
  if (capacity : Int) < newSize then
    let s2 := { s1 with list := s1.list ++ List.replicate (newSize - (capacity : Int)).toNat none
                        capacity := newSize.toNat }
    if s2.count = 0 then { s2 with rear := capacity - 1 } else s2
  else s1

/-- The while-loop of `CA.__iter__`: yield the slot at `position`, stop
after yielding the slot at `rear`, else step `position` forward by 1 mod
`capacity`.  The fuel argument bounds the number of yields; the caller
passes `capacity`, which under the invariants is enough to reach `rear`. -/
def iterF (lst : List (Option D)) (cap rear : Nat) : Nat → Nat → List (Option D)
  | 0, _ => []
  | fuel + 1, position =>
    if position = rear then [lst.getD position none]
    else lst.getD position none :: iterF lst cap rear fuel ((position + 1) % cap)

/-- `CA.__iter__()` run to exhaustion: nothing when `count == 0`, else the
walk from `front` to `rear` over a copy of the storage (copying is the
identity in this value semantics). -/
def iterList (s : CAState D) : List (Option D) :=
  if 0 < s.count then iterF s.list s.capacity s.rear s.capacity s.front else []

/-- The while-loop of `CA.__reversed__`: yield the slot at `position`, stop
after yielding the slot at `front`, else step `position` backward by 1 mod
`capacity` (Python `(position - 1) % capacity`, here
`(position + capacity - 1) % capacity`). -/
def iterRevF (lst : List (Option D)) (cap front : Nat) : Nat → Nat → List (Option D)
  | 0, _ => []
  | fuel + 1, position =>
    if position = front then [lst.getD position none]
    else lst.getD position none :: iterRevF lst cap front fuel ((position + cap - 1) % cap)

/-- `CA.__reversed__()` run to exhaustion: nothing when `count == 0`, else
the walk from `rear` back to `front`. -/
def iterRev (s : CAState D) : List (Option D) :=
  if 0 < s.count then iterRevF s.list s.capacity s.front s.capacity s.rear else []

/-- `CA.__eq__(other)` (after the always-true isinstance check): counts must
agree and the slots `self._list[(frontL+nn)%capacityL]` and
`other._list[(frontR+nn)%capacityR]` must agree for every `nn < count`. -/
def caEq [DecidableEq D] (s t : CAState D) : Bool :=
  if s.count ≠ t.count then false
  else (List.range s.count).all (fun nn => decide (elemAt s nn = elemAt t nn))

/-- The `initial is None` branch of `CA.foldL`: raise on an empty buffer,
else seed the accumulator with `self[0]` and combine with `self[idx]` for
`idx in range(1, count)`.  The combining function acts on raw slot values,
as the untyped Python runtime does. -/
def foldL_noinit (F : Option D → Option D → Option D) (s : CAState D) :
    Except CAErr (Option D) :=
  if s.count = 0 then .error .emptyFold
  else .ok ((List.range' 1 (s.count - 1)).foldl (fun acc idx => F acc (elemAt s idx)) (elemAt s 0))

/-- The `initial is not None` branch of `CA.foldL`: return `initial` on an
empty buffer, else fold the forward iteration starting from `initial`. -/
def foldL_init {L : Type} (g : L → Option D → L) (initial : L) (s : CAState D) : L :=
  if s.count = 0 then initial
  else (iterList s).foldl g initial

/-- The while-loop of `CA.pop_front(num, default)` with the counter `num`
already known positive, recursing on its value: pop, breaking when
`pop_front_unsafe` raises; returns the popped values, the final state and
the final value of the (mutated) counter. -/
def popFrontLoopN : CAState D → Nat → List (Option D) × CAState D × Nat
  | s, 0 => ([], s, 0)
  | s, n + 1 =>
    match pop_front_one s with
    | (.error _, s1) => ([], s1, n + 1)
    | (.ok d, s1) =>
      let r := popFrontLoopN s1 n
      (d :: r.1, r.2.1, r.2.2)

/-- The while-loop of `CA.pop_front(num, default)` for an arbitrary Python
int `num`: when `num <= 0` the loop body never runs and `num` is left as
is; when `0 < num` the loop runs with counter `num` and the final counter
value is reported back as an int. -/
def popFrontLoop (s : CAState D) (num : Int) : List (Option D) × CAState D × Int :=
  if 0 < num then
    let r := popFrontLoopN s num.toNat
    (r.1, r.2.1, (r.2.2 : Int))
  else ([], s, num)

/-- `CA.pop_front(num, default)`: run the loop, then append `default` when
the final `num` is 1, nothing was popped, and `default is not None`. -/
def popFront (s : CAState D) (num : Int) (default : Option D) :
    List (Option D) × CAState D :=
  let r := popFrontLoop s num
  if r.2.2 = 1 ∧ r.1.length = 0 then
    match default with
    | some d => (r.1 ++ [some d], r.2.1)
    | none => (r.1, r.2.1)
  else (r.1, r.2.1)

/-- The while-loop of `CA.pop_rear(num, default)` with a positive counter,
identical to the front loop but popping from the rear (`CA.pop_rear`
decrements a copy `n` of `num`). -/
def popRearLoopN : CAState D → Nat → List (Option D) × CAState D × Nat
  | s, 0 => ([], s, 0)
  | s, n + 1 =>
    match pop_rear_one s with
    | (.error _, s1) => ([], s1, n + 1)
    | (.ok d, s1) =>
      let r := popRearLoopN s1 n
      (d :: r.1, r.2.1, r.2.2)

/-- The while-loop of `CA.pop_rear(num, default)` for an arbitrary Python
int `num`. -/
def popRearLoop (s : CAState D) (num : Int) : List (Option D) × CAState D × Int :=
  if 0 < num then
    let r := popRearLoopN s num.toNat
    (r.1, r.2.1, (r.2.2 : Int))
  else ([], s, num)

/-- `CA.pop_rear(num, default)`: run the loop, then append `default` when
the ORIGINAL `num` is 1, nothing was popped, and `default is not None`. -/
def popRear (s : CAState D) (num : Int) (default : Option D) :
    List (Option D) × CAState D :=
  let r := popRearLoop s num
  if num = 1 ∧ r.1.length = 0 then
    match default with
    | some d => (r.1 ++ [some d], r.2.1)
    | none => (r.1, r.2.1)
  else (r.1, r.2.1)

-- Sanity examples (concrete evaluations checked while developing).
example : (CAinit [10, 20, 30] : CAState Nat).capacity = 5 := by decide
example : toList (CAinit [10, 20, 30] : CAState Nat) = [some 10, some 20, some 30] := by decide
example : RingInv (CAinit [10, 20, 30] : CAState Nat) := by decide
example : RingInv (push_rear (push_rear (CAinit ([] : List Nat)) 1) 2) := by decide
example : toList (double (push_rear (push_rear (CAinit ([] : List Nat)) 1) 2)) =
    [some 1, some 2] := by decide
example : getItem (CAinit [10, 20, 30] : CAState Nat) (-1) = .ok (some 30) := by decide
example : getItem (CAinit [10, 20, 30] : CAState Nat) 3 = .error (.outOfBounds 3 (-3) 2) := by
  decide
example :
    push_front (push_front (CAinit [1, 2]) 9) 8 =
      ({ list := [some 9, some 1, some 2, some 8], count := 4, capacity := 4,
         front := 3, rear := 2 } : CAState Nat) := by decide
example :
    toList (double (push_front (push_front (CAinit [1, 2]) 9) 8) : CAState Nat) =
      [some 8, some 9, some 1, some 2] := by decide
example :
    iterList (push_front (push_front (CAinit [1, 2]) 9) 8 : CAState Nat) =
      [some 8, some 9, some 1, some 2] := by decide
example :
    iterRev (push_front (push_front (CAinit [1, 2]) 9) 8 : CAState Nat) =
      [some 2, some 1, some 9, some 8] := by decide
example :
    (popFront (CAinit [1, 2] : CAState Nat) 5 (some 9)).1 = [some 1, some 2] := by decide
example :
    (popFront (CAinit ([] : List Nat)) 1 (some 9)).1 = [some 9] := by decide
example :
    (popRear (CAinit ([] : List Nat)) 2 (some 9)).1 = [] := by decide
example :
    foldL_noinit (fun a b => match a, b with
      | some x, some y => some (x + y)
      | _, _ => none) (CAinit [1, 2, 3, 4, 5] : CAState Nat) = .ok (some 15) := by decide

/-! Generic helper lemmas about list indexing with defaults and about
walking a ring modulo its capacity. -/

theorem getD_append_left {A : Type} (l1 l2 : List A) (n : Nat) (d : A) (h : n < l1.length) :
    (l1 ++ l2).getD n d = l1.getD n d := by
  simp [List.getD_eq_getElem?_getD, List.getElem?_append_left h]

theorem getD_append_right {A : Type} (l1 l2 : List A) (n : Nat) (d : A) (h : l1.length ≤ n) :
    (l1 ++ l2).getD n d = l2.getD (n - l1.length) d := by
  simp [List.getD_eq_getElem?_getD, List.getElem?_append_right h]

theorem getD_drop {A : Type} (l : List A) (m n : Nat) (d : A) :
    (l.drop m).getD n d = l.getD (m + n) d := by
  simp [List.getD_eq_getElem?_getD, List.getElem?_drop]

theorem getD_take {A : Type} (l : List A) (m n : Nat) (d : A) (h : n < m) :
    (l.take m).getD n d = l.getD n d := by
  simp [List.getD_eq_getElem?_getD, List.getElem?_take_of_lt h]

theorem getD_replicate {A : Type} (m n : Nat) (x d : A) (h : n < m) :
    (List.replicate m x).getD n d = x := by
  simp [List.getD_eq_getElem?_getD, List.getElem?_replicate_of_lt h]

theorem mod_add_inj {n a b x : Nat} (ha : a < n) (hb : b < n)
    (h : (x + a) % n = (x + b) % n) : a = b := by
  have h2 : a ≡ b [MOD n] := Nat.ModEq.add_left_cancel' x h
  have h3 : a % n = b % n := h2
  rwa [Nat.mod_eq_of_lt ha, Nat.mod_eq_of_lt hb] at h3

/-- Invariant consequence: the position of `rear` relative to `front` in
the non-wrapped and wrapped cases. -/
theorem rear_spec (s : CAState D) (h : RingInv s) (hc : 0 < s.count) :
    (s.front ≤ s.rear → s.rear + 1 = s.front + s.count ∧ s.front + s.count ≤ s.capacity) ∧
    (s.rear < s.front → s.rear + 1 + s.capacity = s.front + s.count) := by
  obtain ⟨-, hcap2, hcnt, hfr, hre, hpos, -⟩ := h
  have hr := (hpos hc).1
  by_cases hlt : s.front + s.count - 1 < s.capacity
  · rw [Nat.mod_eq_of_lt hlt] at hr
    constructor
    · intro _; omega
    · intro hwrap; omega
  · have h2 : s.front + s.count - 1 - s.capacity < s.capacity := by omega
    rw [Nat.mod_eq_sub_mod (by omega), Nat.mod_eq_of_lt h2] at hr
    constructor
    · intro hnw; omega
    · intro _; omega

theorem toList_length (s : CAState D) : (toList s).length = s.count := by
  simp [toList]

theorem toList_getD (s : CAState D) (i : Nat) (h : i < s.count) :
    (toList s).getD i none = elemAt s i := by
  simp [toList, List.getD_eq_getElem?_getD, List.getElem?_map, List.getElem?_range h]

theorem toList_eq_toList (s t : CAState D) (hc : s.count = t.count)
    (he : ∀ i, i < s.count → elemAt s i = elemAt t i) : toList s = toList t := by
  unfold toList
  rw [← hc]
  exact List.map_congr_left (fun a ha => he a (List.mem_range.mp ha))

theorem getD_map_some {A : Type} (l : List A) (k : Nat) :
    (l.map some).getD k none = l.get? k := by
  simp only [List.getD_eq_getElem?_getD, List.getElem?_map, List.get?_eq_getElem?]
  cases l[k]? <;> simp

/-- C1: the claim states that the ring-buffer invariants hold after every
public operation, but the code violates it.  `CA.empty()` does not reset
`_count`: after `CA(10, 20).empty()` the count is still 2 while every slot
holds the empty placeholder and `rear = 3` differs from
`(front + count - 1) mod capacity = 1`.  Likewise, `CA.resize` on an empty
buffer sets `rear` from the pre-extension capacity, so the state reached by
`CA().resize(4).push_rear(7)` has `rear = 2` instead of
`(front + count - 1) mod capacity = 0` and its single live element is not
at the slot `get(0)` reads: `get(0)` returns the empty placeholder. -/
theorem C1_invariants_violated :
    (empty (CAinit [10, 20] : CAState Nat)).count = 2 ∧
    (∀ j, j < (empty (CAinit [10, 20] : CAState Nat)).capacity →
      (empty (CAinit [10, 20] : CAState Nat)).list.getD j none = none) ∧
    (empty (CAinit [10, 20] : CAState Nat)).rear = 3 ∧
    ((empty (CAinit [10, 20] : CAState Nat)).front +
        (empty (CAinit [10, 20] : CAState Nat)).count - 1) %
        (empty (CAinit [10, 20] : CAState Nat)).capacity = 1 ∧
    ¬ RingInv (empty (CAinit [10, 20] : CAState Nat)) ∧
    (push_rear (resize (CAinit ([] : List Nat)) 4) 7).count = 1 ∧
    getItem (push_rear (resize (CAinit ([] : List Nat)) 4) 7) 0 = .ok none ∧
    ¬ RingInv (push_rear (resize (CAinit ([] : List Nat)) 4) 7) := by decide

/-- C5 counterexample: the claim says construction from n elements yields
capacity = max(2, n), but `CA('a')`-style construction from one element
yields capacity 3 (the storage always carries two sentinel slots), while
max(2, 1) = 2. -/
theorem C5_counterexample :
    (CAinit [0] : CAState Nat).capacity = 3 ∧
    max 2 ([0] : List Nat).length = 2 ∧
    (CAinit [0] : CAState Nat).capacity ≠ max 2 ([0] : List Nat).length := by decide

/-- C5 (amended): constructing from an initial ordered sequence of n
elements yields capacity = n + 2 (the storage always carries one sentinel
slot at each boundary; NOT max(2, n)) and count = n; afterwards get(i)
returns the i-th element of the sequence for every 0 <= i < n, and get(i)
for -n <= i < 0 returns element n + i. -/
theorem C5_construction_and_get (ds : List D) :
    (CAinit ds).capacity = ds.length + 2 ∧
    (CAinit ds).count = ds.length ∧
    (∀ i : Int, 0 ≤ i → i < (ds.length : Int) →
      getItem (CAinit ds) i = .ok (ds.get? i.toNat)) ∧
    (∀ i : Int, -(ds.length : Int) ≤ i → i < 0 →
      getItem (CAinit ds) i = .ok (ds.get? ((ds.length : Int) + i).toNat)) := by
  have hcap : (CAinit ds).capacity = ds.length + 2 := by
    simp [CAinit]
  have hcount : (CAinit ds).count = ds.length := by
    simp [CAinit]
  have hlist : (CAinit ds).list = [none] ++ ds.map some ++ [none] := by
    simp [CAinit]
  refine ⟨hcap, hcount, ?_, ?_⟩
  · intro i h0 hn
    have hnpos : 0 < ds.length := by
      have h1 : (0 : Int) < (ds.length : Int) := lt_of_le_of_lt h0 hn
      exact_mod_cast h1
    have hfront : (CAinit ds).front = 1 := by
      simp only [CAinit]
      rw [if_neg (by
        simp only [List.length_append, List.length_map, List.length_cons, List.length_nil]
        omega)]
    unfold getItem
    simp only [hcount, hcap, hfront, hlist]
    rw [if_pos ⟨h0, hn⟩]
    have hmod : (((1 : Nat) : Int) + i) % (((ds.length + 2 : Nat)) : Int) = 1 + i := by
      rw [Int.emod_eq_of_lt (by omega) (by push_cast; omega)]
      norm_cast
    rw [hmod]
    have htn : ((1 : Int) + i).toNat = i.toNat + 1 := by omega
    rw [htn]
    have hlt : i.toNat + 1 < ([none] ++ ds.map some : List (Option D)).length := by
      simp; omega
    rw [getD_append_left _ _ _ _ hlt]
    show Except.ok ((none :: ds.map some).getD (i.toNat + 1) none) = _
    rw [List.getD_cons_succ, getD_map_some]
  · intro i hn h0
    have hnpos : 0 < ds.length := by
      have h1 : (0 : Int) < (ds.length : Int) := by omega
      exact_mod_cast h1
    have hfront : (CAinit ds).front = 1 := by
      simp only [CAinit]
      rw [if_neg (by
        simp only [List.length_append, List.length_map, List.length_cons, List.length_nil]
        omega)]
    unfold getItem
    simp only [hcount, hcap, hfront, hlist]
    rw [if_neg (by omega), if_pos ⟨hn, h0⟩]
    have hmod : (((1 : Nat) : Int) + (ds.length : Int) + i) % (((ds.length + 2 : Nat)) : Int) =
        1 + (ds.length : Int) + i := by
      rw [Int.emod_eq_of_lt (by omega) (by push_cast; omega)]
      norm_cast
    rw [hmod]
    have htn : ((1 : Int) + (ds.length : Int) + i).toNat = ((ds.length : Int) + i).toNat + 1 := by
      omega
    rw [htn]
    have hlt : ((ds.length : Int) + i).toNat + 1 <
        ([none] ++ ds.map some : List (Option D)).length := by
      simp; omega
    rw [getD_append_left _ _ _ _ hlt]
    show Except.ok ((none :: ds.map some).getD (((ds.length : Int) + i).toNat + 1) none) = _
    rw [List.getD_cons_succ, getD_map_some]

/-- C5 witness: the amended theorem applied to the concrete sequence
[10, 20, 30] at indices 1 and -2. -/
theorem C5_construction_and_get_witness :
    (0 : Int) ≤ 1 ∧ (1 : Int) < (([10, 20, 30] : List Nat).length : Int) ∧
    -((([10, 20, 30] : List Nat).length : Int)) ≤ -2 ∧ (-2 : Int) < 0 ∧
    getItem (CAinit ([10, 20, 30] : List Nat)) 1 = .ok (some 20) ∧
    getItem (CAinit ([10, 20, 30] : List Nat)) (-2) = .ok (some 20) :=
  ⟨by decide, by decide, by decide, by decide,
   (C5_construction_and_get [10, 20, 30]).2.2.1 1 (by decide) (by decide),
   (C5_construction_and_get [10, 20, 30]).2.2.2 (-2) (by decide) (by decide)⟩

theorem getItem_in_range_pos (s : CAState D) (i : Int) (h0 : 0 ≤ i) (hc : i < (s.count : Int)) :
    getItem s i = .ok (s.list.getD (((s.front : Int) + i) % (s.capacity : Int)).toNat none) := by
  unfold getItem
  rw [if_pos ⟨h0, hc⟩]

theorem getItem_in_range_neg (s : CAState D) (i : Int) (hm : -(s.count : Int) ≤ i)
    (h0 : i < 0) :
    getItem s i =
      .ok (s.list.getD (((s.front : Int) + (s.count : Int) + i) % (s.capacity : Int)).toNat none) := by
  unfold getItem
  rw [if_neg (by omega), if_pos ⟨hm, h0⟩]

theorem getItem_oob (s : CAState D) (i : Int)
    (h : ¬ (-(s.count : Int) ≤ i ∧ i < (s.count : Int))) (h3 : 0 < s.count) :
    getItem s i = .error (.outOfBounds i (-(s.count : Int)) ((s.count : Int) - 1)) := by
  unfold getItem
  rw [if_neg (by omega), if_neg (by omega), if_pos (by exact_mod_cast h3)]

theorem getItem_empty (s : CAState D) (i : Int) (h : s.count = 0) :
    getItem s i = .error .emptyAccess := by
  unfold getItem
  rw [if_neg (by omega), if_neg (by omega), if_neg (by omega)]

theorem setItem_oob (s : CAState D) (i : Int) (v : D)
    (h : ¬ (-(s.count : Int) ≤ i ∧ i < (s.count : Int))) (h3 : 0 < s.count) :
    setItem s i v = (s, some (.outOfBounds i (-(s.count : Int)) ((s.count : Int) - 1))) := by
  unfold setItem
  rw [if_neg (by omega), if_neg (by omega), if_pos (by exact_mod_cast h3)]

theorem setItem_empty (s : CAState D) (i : Int) (v : D) (h : s.count = 0) :
    setItem s i v = (s, some .emptyAccess) := by
  unfold setItem
  rw [if_neg (by omega), if_neg (by omega), if_neg (by omega)]

theorem setItem_in_range (s : CAState D) (i : Int) (v : D)
    (h : -(s.count : Int) ≤ i ∧ i < (s.count : Int)) :
    (setItem s i v).2 = none := by
  unfold setItem
  by_cases h1 : 0 ≤ i ∧ i < (s.count : Int)
  · rw [if_pos h1]
  · rw [if_neg h1, if_pos (by omega)]

/-- C6: get(i) and set(i, v) fail exactly when i lies outside
[-count, count); the error distinguishes the empty buffer (emptyAccess,
the Python message "Trying to get/set value from an empty CA.") from an
out-of-bounds index on a nonempty buffer (outOfBounds, the message
recording the valid range -count .. count-1); pop_front_unsafe and
pop_rear_unsafe fail exactly when count = 0; and every failing operation
returns the buffer state completely unchanged. -/
theorem C6_errors (s : CAState D) (i : Int) (v : D) :
    ((∃ e, getItem s i = .error e) ↔ ¬ (-(s.count : Int) ≤ i ∧ i < (s.count : Int))) ∧
    (s.count = 0 → getItem s i = .error .emptyAccess ∧ setItem s i v = (s, some .emptyAccess)) ∧
    (0 < s.count → ¬ (-(s.count : Int) ≤ i ∧ i < (s.count : Int)) →
      getItem s i = .error (.outOfBounds i (-(s.count : Int)) ((s.count : Int) - 1)) ∧
      setItem s i v = (s, some (.outOfBounds i (-(s.count : Int)) ((s.count : Int) - 1)))) ∧
    ((setItem s i v).2.isSome ↔ ¬ (-(s.count : Int) ≤ i ∧ i < (s.count : Int))) ∧
    (¬ (-(s.count : Int) ≤ i ∧ i < (s.count : Int)) → (setItem s i v).1 = s) ∧
    (s.count = 0 → pop_front_one s = (.error .emptyPop, s) ∧
      pop_rear_one s = (.error .emptyPop, s)) ∧
    (0 < s.count → (∃ d t, pop_front_one s = (.ok d, t)) ∧
      (∃ d t, pop_rear_one s = (.ok d, t))) := by
  have hpopf : s.count = 0 → pop_front_one s = (.error .emptyPop, s) := by
    intro h
    unfold pop_front_one
    rw [if_neg (by omega)]
  have hpopr : s.count = 0 → pop_rear_one s = (.error .emptyPop, s) := by
    intro h
    unfold pop_rear_one
    rw [if_neg (by omega)]
  refine ⟨?_, ?_, ?_, ?_, ?_, fun h => ⟨hpopf h, hpopr h⟩, ?_⟩
  · constructor
    · rintro ⟨e, he⟩ hin
      by_cases h1 : 0 ≤ i
      · rw [getItem_in_range_pos s i h1 hin.2] at he
        exact Except.noConfusion he
      · rw [getItem_in_range_neg s i hin.1 (by omega)] at he
        exact Except.noConfusion he
    · intro hout
      by_cases h3 : 0 < s.count
      · exact ⟨_, getItem_oob s i hout h3⟩
      · exact ⟨_, getItem_empty s i (by omega)⟩
  · intro h
    exact ⟨getItem_empty s i h, setItem_empty s i v h⟩
  · intro h3 hout
    exact ⟨getItem_oob s i hout h3, setItem_oob s i v hout h3⟩
  · constructor
    · intro hsome
      intro hin
      rw [setItem_in_range s i v hin] at hsome
      simp at hsome
    · intro hout
      by_cases h3 : 0 < s.count
      · rw [setItem_oob s i v hout h3]
        simp
      · rw [setItem_empty s i v (by omega)]
        simp
  · intro hout
    by_cases h3 : 0 < s.count
    · rw [setItem_oob s i v hout h3]
    · rw [setItem_empty s i v (by omega)]
  · intro h3
    constructor
    · refine ⟨s.list.getD s.front none,
        { s with list := s.list.set s.front none
                 front := (s.front + 1) % s.capacity
                 count := s.count - 1 }, ?_⟩
      unfold pop_front_one
      rw [if_pos h3]
    · refine ⟨s.list.getD s.rear none,
        { s with list := s.list.set s.rear none
                 rear := (s.rear + s.capacity - 1) % s.capacity
                 count := s.count - 1 }, ?_⟩
      unfold pop_rear_one
      rw [if_pos h3]

/-- C6 witness: the theorem applied to the concrete buffer CA(5, 6) at the
out-of-range index 2 (count = 2), showing the out-of-bounds failure with
the state unchanged, and to pops on the empty buffer CA(). -/
theorem C6_errors_witness :
    (¬ (-(((CAinit [5, 6] : CAState Nat)).count : Int) ≤ 2 ∧
        (2 : Int) < (((CAinit [5, 6] : CAState Nat)).count : Int)) →
      (setItem (CAinit [5, 6] : CAState Nat) 2 7).1 = CAinit [5, 6]) ∧
    ((CAinit ([] : List Nat)).count = 0 →
      pop_front_one (CAinit ([] : List Nat)) = (.error .emptyPop, CAinit ([] : List Nat)) ∧
      pop_rear_one (CAinit ([] : List Nat)) = (.error .emptyPop, CAinit ([] : List Nat))) :=
  ⟨fun h => (C6_errors (CAinit [5, 6] : CAState Nat) 2 7).2.2.2.2.1 h,
   fun h => (C6_errors (CAinit ([] : List Nat)) 0 0).2.2.2.2.2.1 h⟩

/-- C8: two buffers compare equal exactly when they have the same live
count and are element-wise equal in logical front-to-back order, i.e.
exactly when their logical contents coincide; front positions and
capacities (hence push/pop histories) are irrelevant. -/
theorem C8_eq_iff_toList_eq [DecidableEq D] (s t : CAState D) :
    caEq s t = true ↔ toList s = toList t := by
  unfold caEq
  by_cases hc : s.count = t.count
  · rw [if_neg (not_not_intro hc), List.all_eq_true]
    constructor
    · intro hall
      apply toList_eq_toList s t hc
      intro i hi
      exact of_decide_eq_true (hall i (List.mem_range.mpr hi))
    · intro heq i hi
      apply decide_eq_true
      have hi' := List.mem_range.mp hi
      have h1 := toList_getD s i hi'
      have h2 := toList_getD t i (by omega)
      rw [heq] at h1
      rw [← h1]
      exact h2
  · rw [if_pos hc]
    constructor
    · intro habs
      exact absurd habs (by simp)
    · intro heq
      have hlen := congrArg List.length heq
      rw [toList_length, toList_length] at hlen
      exact absurd hlen hc

theorem pop_front_one_empty (s : CAState D) (h : s.count = 0) :
    pop_front_one s = (.error .emptyPop, s) := by
  unfold pop_front_one
  rw [if_neg (by omega)]

theorem pop_rear_one_empty (s : CAState D) (h : s.count = 0) :
    pop_rear_one s = (.error .emptyPop, s) := by
  unfold pop_rear_one
  rw [if_neg (by omega)]

theorem pop_front_one_pos (s : CAState D) (h : 0 < s.count) :
    pop_front_one s = (.ok (s.list.getD s.front none),
      { s with list := s.list.set s.front none
               front := (s.front + 1) % s.capacity
               count := s.count - 1 }) := by
  unfold pop_front_one
  rw [if_pos h]

theorem pop_rear_one_pos (s : CAState D) (h : 0 < s.count) :
    pop_rear_one s = (.ok (s.list.getD s.rear none),
      { s with list := s.list.set s.rear none
               rear := (s.rear + s.capacity - 1) % s.capacity
               count := s.count - 1 }) := by
  unfold pop_rear_one
  rw [if_pos h]

theorem popFrontLoopN_empty (s : CAState D) (h : s.count = 0) (n : Nat) :
    popFrontLoopN s n = ([], s, n) := by
  cases n with
  | zero => rfl
  | succ m => simp [popFrontLoopN, pop_front_one_empty s h]

theorem popRearLoopN_empty (s : CAState D) (h : s.count = 0) (n : Nat) :
    popRearLoopN s n = ([], s, n) := by
  cases n with
  | zero => rfl
  | succ m => simp [popRearLoopN, pop_rear_one_empty s h]

theorem popFrontLoop_empty (s : CAState D) (h : s.count = 0) (num : Int) :
    popFrontLoop s num = ([], s, num) := by
  unfold popFrontLoop
  by_cases hn : 0 < num
  · rw [if_pos hn, popFrontLoopN_empty s h]
    simp
    omega
  · rw [if_neg hn]

theorem popRearLoop_empty (s : CAState D) (h : s.count = 0) (num : Int) :
    popRearLoop s num = ([], s, num) := by
  unfold popRearLoop
  by_cases hn : 0 < num
  · rw [if_pos hn, popRearLoopN_empty s h]
    simp
    omega
  · rw [if_neg hn]

theorem popFrontLoopN_nil_counter (s : CAState D) (n : Nat)
    (h : (popFrontLoopN s n).1 = []) : (popFrontLoopN s n).2.2 = n := by
  cases n with
  | zero => rfl
  | succ m =>
    by_cases hc : 0 < s.count
    · exfalso
      simp [popFrontLoopN, pop_front_one_pos s hc] at h
    · simp [popFrontLoopN, pop_front_one_empty s (by omega)]

theorem popRearLoopN_nil_counter (s : CAState D) (n : Nat)
    (h : (popRearLoopN s n).1 = []) : (popRearLoopN s n).2.2 = n := by
  cases n with
  | zero => rfl
  | succ m =>
    by_cases hc : 0 < s.count
    · exfalso
      simp [popRearLoopN, pop_rear_one_pos s hc] at h
    · simp [popRearLoopN, pop_rear_one_empty s (by omega)]

theorem popFrontLoop_nil_counter (s : CAState D) (num : Int)
    (h : (popFrontLoop s num).1 = []) : (popFrontLoop s num).2.2 = num := by
  unfold popFrontLoop at h ⊢
  by_cases hn : 0 < num
  · rw [if_pos hn] at h ⊢
    simp only at h ⊢
    rw [popFrontLoopN_nil_counter s num.toNat h]
    omega
  · rw [if_neg hn]

theorem popRearLoop_nil_counter (s : CAState D) (num : Int)
    (h : (popRearLoop s num).1 = []) : (popRearLoop s num).2.2 = num := by
  unfold popRearLoop at h ⊢
  by_cases hn : 0 < num
  · rw [if_pos hn] at h ⊢
    simp only at h ⊢
    rw [popRearLoopN_nil_counter s num.toNat h]
    omega
  · rw [if_neg hn]

theorem popFrontLoopN_pos_ne_nil (s : CAState D) (hc : 0 < s.count) (m : Nat) :
    (popFrontLoopN s (m + 1)).1 ≠ [] := by
  simp [popFrontLoopN, pop_front_one_pos s hc]

theorem popRearLoopN_pos_ne_nil (s : CAState D) (hc : 0 < s.count) (m : Nat) :
    (popRearLoopN s (m + 1)).1 ≠ [] := by
  simp [popRearLoopN, pop_rear_one_pos s hc]

/-- C10: in pop_front(num, default) and pop_rear(num, default), the
caller-supplied default appears in the result only when exactly one element
was requested (num = 1), nothing could be popped (which on an empty buffer
is always the case), and default is not None; popping from an empty buffer
with num different from 1, or with default left as None, yields the bare
loop result (the empty tuple on an empty buffer) with no default inserted,
and on a nonempty buffer the result is always the bare loop result. -/
theorem C10_pop_defaults (s : CAState D) (num : Int) (default : Option D) :
    (s.count = 0 → popFrontLoop s num = ([], s, num) ∧ popRearLoop s num = ([], s, num)) ∧
    (s.count = 0 → num = 1 → ∀ d, default = some d →
      popFront s num default = ([some d], s) ∧ popRear s num default = ([some d], s)) ∧
    (num ≠ 1 → (popFront s num default).1 = (popFrontLoop s num).1 ∧
      (popRear s num default).1 = (popRearLoop s num).1) ∧
    (default = none → (popFront s num default).1 = (popFrontLoop s num).1 ∧
      (popRear s num default).1 = (popRearLoop s num).1) ∧
    (0 < s.count → (popFront s num default).1 = (popFrontLoop s num).1 ∧
      (popRear s num default).1 = (popRearLoop s num).1) := by
  refine ⟨fun h => ⟨popFrontLoop_empty s h num, popRearLoop_empty s h num⟩, ?_, ?_, ?_, ?_⟩
  · intro h h1 d hd
    subst h1
    subst hd
    constructor
    · unfold popFront
      rw [popFrontLoop_empty s h 1]
      simp
    · unfold popRear
      rw [popRearLoop_empty s h 1]
      simp
  · intro hne
    constructor
    · unfold popFront
      by_cases hcond : (popFrontLoop s num).2.2 = 1 ∧ (popFrontLoop s num).1.length = 0
      · exfalso
        have hnil : (popFrontLoop s num).1 = [] := by
          rcases hcond with ⟨-, h2⟩
          exact List.length_eq_zero.mp h2
        have := popFrontLoop_nil_counter s num hnil
        rw [hcond.1] at this
        exact hne this.symm
      · rw [if_neg hcond]
    · unfold popRear
      rw [if_neg (by intro hcond; exact hne hcond.1)]
  · intro hd
    subst hd
    constructor
    · unfold popFront
      by_cases hcond : (popFrontLoop s num).2.2 = 1 ∧ (popFrontLoop s num).1.length = 0
      · rw [if_pos hcond]
      · rw [if_neg hcond]
    · unfold popRear
      by_cases hcond : num = 1 ∧ (popRearLoop s num).1.length = 0
      · rw [if_pos hcond]
      · rw [if_neg hcond]
  · intro hc
    constructor
    · unfold popFront
      by_cases hnum : 0 < num
      · have hne : (popFrontLoop s num).1 ≠ [] := by
          unfold popFrontLoop
          rw [if_pos hnum]
          have h1 : num.toNat = (num.toNat - 1) + 1 := by omega
          rw [h1]
          exact popFrontLoopN_pos_ne_nil s hc (num.toNat - 1)
        rw [if_neg (by
          intro hcond
          exact hne (List.length_eq_zero.mp hcond.2))]
      · have hr : popFrontLoop s num = ([], s, num) := by
          unfold popFrontLoop
          rw [if_neg hnum]
        rw [hr]
        rw [if_neg (by
          intro hcond
          have := hcond.1
          simp at this
          omega)]
    · unfold popRear
      by_cases hnum : 0 < num
      · have hne : (popRearLoop s num).1 ≠ [] := by
          unfold popRearLoop
          rw [if_pos hnum]
          have h1 : num.toNat = (num.toNat - 1) + 1 := by omega
          rw [h1]
          exact popRearLoopN_pos_ne_nil s hc (num.toNat - 1)
        rw [if_neg (by
          intro hcond
          exact hne (List.length_eq_zero.mp hcond.2))]
      · have hr : popRearLoop s num = ([], s, num) := by
          unfold popRearLoop
          rw [if_neg hnum]
        rw [hr]
        rw [if_neg (by
          intro hcond
          omega)]

/-- C10 witness: on the empty buffer CA() with num = 1 and default 9, both
bulk pops return exactly the default; the hypotheses of the theorem are
discharged at this concrete input. -/
theorem C10_pop_defaults_witness :
    (CAinit ([] : List Nat)).count = 0 ∧
    popFront (CAinit ([] : List Nat)) 1 (some 9) = ([some 9], CAinit ([] : List Nat)) ∧
    popRear (CAinit ([] : List Nat)) 1 (some 9) = ([some 9], CAinit ([] : List Nat)) :=
  ⟨by decide,
   ((C10_pop_defaults (CAinit ([] : List Nat)) 1 (some 9)).2.1 (by decide) rfl 9 rfl).1,
   ((C10_pop_defaults (CAinit ([] : List Nat)) 1 (some 9)).2.1 (by decide) rfl 9 rfl).2⟩

theorem elemAt_eq_of_lt_cap (s : CAState D) (i : Nat) (h : s.front + i < s.capacity) :
    elemAt s i = s.list.getD (s.front + i) none := by
  unfold elemAt
  rw [Nat.mod_eq_of_lt h]

theorem elemAt_eq_of_ge_cap (s : CAState D) (i : Nat) (h1 : s.capacity ≤ s.front + i)
    (h2 : s.front + i < 2 * s.capacity) :
    elemAt s i = s.list.getD (s.front + i - s.capacity) none := by
  unfold elemAt
  rw [Nat.mod_eq_sub_mod h1, Nat.mod_eq_of_lt (by omega)]

theorem compact_count (s : CAState D) : (compact s).count = s.count := by
  rcases hsc : s.count with _ | m
  · simp [compact, hsc]
  · rcases m with _ | n
    · simp [compact, hsc]
    · by_cases hfr : s.front ≤ s.rear <;> simp [compact, hsc, hfr]

/-- Reading logical slot i of a compacted buffer (sentinel, live run of
length c, sentinel) gives entry i of the live run. -/
theorem elemAt_sentinel (mid : List (Option D)) (c count2 rear2 : Nat) (hml : mid.length = c)
    (i : Nat) (hi : i < c) :
    elemAt ({ list := [none] ++ mid ++ [none], count := count2, capacity := c + 2,
              front := 1, rear := rear2 } : CAState D) i = mid.getD i none := by
  unfold elemAt
  simp only
  rw [Nat.mod_eq_of_lt (by omega)]
  rw [getD_append_left _ _ _ _ (by simp [hml]; omega)]
  show (none :: mid).getD (1 + i) none = _
  rw [show 1 + i = i + 1 from by omega, List.getD_cons_succ]

/-- After `compact` on a nonempty buffer the state always has the shape
sentinel / live run of length count / sentinel with front 1 and rear count,
and the live run holds the logical contents. -/
theorem compact_shape (s : CAState D) (h : RingInv s) (hc : 0 < s.count) :
    ∃ mid : List (Option D), mid.length = s.count ∧
      (∀ i, i < s.count → mid.getD i none = elemAt s i) ∧
      compact s = { list := [none] ++ mid ++ [none], count := s.count,
                    capacity := s.count + 2, front := 1, rear := s.count } := by
  have hrs := rear_spec s h hc
  obtain ⟨hlen, hcap2, hcnt, hfr, hre, -, -⟩ := h
  rcases hsc : s.count with _ | m
  · omega
  rcases m with _ | n
  · -- count = 1
    refine ⟨[s.list.getD s.front none], rfl, ?_, ?_⟩
    · intro i hi
      have hi0 : i = 0 := by omega
      subst hi0
      rw [elemAt_eq_of_lt_cap s 0 (by omega)]
      simp
    · simp [compact, hsc]
  · -- count = n + 2
    by_cases hfr2 : s.front ≤ s.rear
    · have hr1 := (hrs.1 hfr2).1
      have hr2 := (hrs.1 hfr2).2
      refine ⟨(s.list.drop s.front).take (s.rear + 1 - s.front), ?_, ?_, ?_⟩
      · rw [List.length_take, List.length_drop, hlen]
        omega
      · intro i hi
        rw [getD_take _ _ _ _ (by omega), getD_drop,
          elemAt_eq_of_lt_cap s i (by omega)]
      · simp only [compact, hsc]
        rw [if_pos hfr2]
    · have hr3 := hrs.2 (by omega)
      refine ⟨s.list.drop s.front ++ s.list.take (s.rear + 1), ?_, ?_, ?_⟩
      · rw [List.length_append, List.length_take, List.length_drop, hlen]
        omega
      · intro i hi
        by_cases hi2 : i < s.capacity - s.front
        · rw [getD_append_left _ _ _ _ (by rw [List.length_drop, hlen]; omega),
            getD_drop, elemAt_eq_of_lt_cap s i (by omega)]
        · rw [getD_append_right _ _ _ _ (by rw [List.length_drop, hlen]; omega),
            List.length_drop, hlen,
            getD_take _ _ _ _ (by omega),
            elemAt_eq_of_ge_cap s i (by omega) (by omega)]
          congr 1
          omega
      · simp only [compact, hsc]
        rw [if_neg hfr2]

theorem list_eq_of_getD {A : Type} (l1 l2 : List A) (d : A) (hlen : l1.length = l2.length)
    (h : ∀ i, i < l1.length → l1.getD i d = l2.getD i d) : l1 = l2 := by
  apply List.ext_getElem hlen
  intro i h1 h2
  have := h i h1
  rw [List.getD_eq_getElem?_getD, List.getD_eq_getElem?_getD,
    List.getElem?_eq_getElem h1, List.getElem?_eq_getElem h2] at this
  simpa using this

theorem RingInv_compact (s : CAState D) (h : RingInv s) : RingInv (compact s) := by
  by_cases hc : 0 < s.count
  · have hlive := (h.2.2.2.2.2.1 hc).2.1
    obtain ⟨mid, hmlen, hmid, hcs⟩ := compact_shape s h hc
    rw [hcs]
    refine ⟨by simp [hmlen], by simp, by simp, by simp, by simp, ?_, ?_⟩
    · rintro -
      refine ⟨?_, ?_, ?_⟩
      · simp only
        rw [show 1 + s.count - 1 = s.count from by omega, Nat.mod_eq_of_lt (by omega)]
      · intro i hi
        simp only at hi
        rw [elemAt_sentinel mid s.count s.count s.count hmlen i hi, hmid i hi]
        exact hlive i hi
      · intro j hj hout
        simp only at hj hout ⊢
        have hj01 : j = 0 ∨ j = s.count + 1 := by
          by_contra hcon
          push_neg at hcon
          have hj1 : 1 ≤ j := by omega
          have hjc : j ≤ s.count := by omega
          exact hout (j - 1) (by omega) (by rw [Nat.mod_eq_of_lt (by omega)]; omega)
        rcases hj01 with h0 | h1
        · subst h0
          rfl
        · subst h1
          rw [getD_append_right _ _ _ _ (by simp [hmlen])]
          simp [hmlen]
    · intro habs
      simp only at habs
      omega
  · have hc0 : s.count = 0 := by omega
    have hcs : compact s =
        { list := [none, none], count := s.count, capacity := 2, front := 0, rear := 1 } := by
      simp [compact, hc0]
    rw [hcs]
    refine ⟨by simp, by simp, by simp [hc0], by simp, by simp, ?_, ?_⟩
    · intro habs
      simp only at habs
      omega
    · rintro - j hj
      simp only at hj
      interval_cases j <;> rfl

theorem toList_compact (s : CAState D) (h : RingInv s) : toList (compact s) = toList s := by
  by_cases hc : 0 < s.count
  · obtain ⟨mid, hmlen, hmid, hcs⟩ := compact_shape s h hc
    apply toList_eq_toList
    · rw [hcs]
    · intro i hi
      rw [hcs] at hi ⊢
      simp only at hi
      rw [elemAt_sentinel mid s.count s.count s.count hmlen i hi, hmid i hi]
  · have hc0 : s.count = 0 := by omega
    unfold toList
    rw [compact_count, hc0]
    simp

theorem compact_idem (s : CAState D) (h : RingInv s) : compact (compact s) = compact s := by
  by_cases hc : 0 < s.count
  · obtain ⟨mid, hmlen, hmid, hcs⟩ := compact_shape s h hc
    have h2 := RingInv_compact s h
    have hc2 : 0 < (compact s).count := by rw [compact_count]; exact hc
    obtain ⟨mid2, hmlen2, hmid2, hcs2⟩ := compact_shape (compact s) h2 hc2
    have hmeq : mid2 = mid := by
      apply list_eq_of_getD mid2 mid none (by rw [hmlen2, hmlen, compact_count])
      intro i hi
      rw [hmlen2, compact_count] at hi
      rw [hmid2 i (by rw [compact_count]; exact hi)]
      rw [hcs]
      exact elemAt_sentinel mid s.count s.count s.count hmlen i hi
    rw [hcs2, hmeq, compact_count, hcs]
  · have hc0 : s.count = 0 := by omega
    have h1 : compact s =
        { list := [none, none], count := s.count, capacity := 2, front := 0, rear := 1 } := by
      simp [compact, hc0]
    rw [h1]
    simp [compact, hc0]

/-- C3: compact() preserves the logical content (same count and same
sequence of live elements in logical order), and compaction is idempotent:
a second compact() changes nothing, so it yields the same logical content
and the same capacity as a single compact(). -/
theorem C3_compact_preserves_and_idem (s : CAState D) (h : RingInv s) :
    toList (compact s) = toList s ∧
    (compact s).count = s.count ∧
    toList (compact (compact s)) = toList (compact s) ∧
    (compact (compact s)).capacity = (compact s).capacity := by
  have hidem := compact_idem s h
  exact ⟨toList_compact s h, compact_count s, by rw [hidem], by rw [hidem]⟩

/-- C3 witness: the theorem applied to a concrete wrapped buffer (front 3,
rear 2, capacity 4) built by two front pushes onto CA(1, 2). -/
theorem C3_compact_witness :
    RingInv (push_front (push_front (CAinit [1, 2]) 9) 8 : CAState Nat) ∧
    toList (compact (push_front (push_front (CAinit [1, 2]) 9) 8 : CAState Nat)) =
      toList (push_front (push_front (CAinit [1, 2]) 9) 8 : CAState Nat) ∧
    compact (compact (push_front (push_front (CAinit [1, 2]) 9) 8 : CAState Nat)) =
      compact (push_front (push_front (CAinit [1, 2]) 9) 8 : CAState Nat) :=
  ⟨by decide,
   (C3_compact_preserves_and_idem (push_front (push_front (CAinit [1, 2]) 9) 8) (by decide)).1,
   compact_idem (push_front (push_front (CAinit [1, 2]) 9) 8) (by decide)⟩

theorem toList_append_slots (s1 : CAState D) (hwf : s1.list.length = s1.capacity)
    (hb : ∀ i, i < s1.count → s1.front + i < s1.capacity)
    (l2 : List (Option D)) (cap2 : Nat) (hcap : s1.capacity ≤ cap2) :
    toList { s1 with list := s1.list ++ l2, capacity := cap2 } = toList s1 := by
  apply toList_eq_toList
  · rfl
  · intro i hi
    have hfi := hb i hi
    unfold elemAt
    simp only
    rw [Nat.mod_eq_of_lt (by omega), Nat.mod_eq_of_lt hfi,
      getD_append_left _ _ _ _ (by rw [hwf]; exact hfi)]

theorem compact_front_bound (s : CAState D) (h : RingInv s) :
    ∀ i, i < (compact s).count → (compact s).front + i < (compact s).capacity := by
  by_cases hc : 0 < s.count
  · obtain ⟨mid, -, -, hcs⟩ := compact_shape s h hc
    rw [hcs]
    intro i hi
    simp only at hi ⊢
    omega
  · intro i hi
    rw [compact_count] at hi
    omega

/-- C4: resize(n) first compacts; exactly when n exceeds the
post-compaction capacity, storage is extended with empty slots at the tail
so that the capacity becomes exactly n; when n is at most the compacted
capacity, the buffer is left exactly at the compacted state (never
shrinking below the tight fit); in all cases the logical sequence of live
elements and the count are unchanged. -/
theorem C4_resize (s : CAState D) (h : RingInv s) (n : Int) :
    toList (resize s n) = toList s ∧
    (resize s n).count = s.count ∧
    (((compact s).capacity : Int) < n → ((resize s n).capacity : Int) = n) ∧
    (n ≤ ((compact s).capacity : Int) → resize s n = compact s) := by
  have hwf1 : (compact s).list.length = (compact s).capacity := (RingInv_compact s h).1
  have hb := compact_front_bound s h
  have htl := toList_compact s h
  have hcnt := compact_count s
  by_cases hn : ((compact s).capacity : Int) < n
  · have hcap2 : (compact s).capacity ≤ n.toNat := by omega
    have hres : resize s n = (if (compact s).count = 0 then
        { compact s with
            list := (compact s).list ++
              List.replicate (n - ((compact s).capacity : Int)).toNat none
            capacity := n.toNat
            rear := (compact s).capacity - 1 }
      else
        { compact s with
            list := (compact s).list ++
              List.replicate (n - ((compact s).capacity : Int)).toNat none
            capacity := n.toNat }) := by
      unfold resize
      rw [if_pos hn]
    rw [hres]
    by_cases h0 : (compact s).count = 0
    · rw [if_pos h0]
      refine ⟨?_, ?_, ?_, ?_⟩
      · have hext := toList_append_slots (compact s) hwf1 hb
          (List.replicate (n - ((compact s).capacity : Int)).toNat none) n.toNat hcap2
        exact hext.trans htl
      · show (compact s).count = s.count
        exact hcnt
      · intro _hlt
        show ((n.toNat : Nat) : Int) = n
        omega
      · intro hle
        exact absurd hle (by omega)
    · rw [if_neg h0]
      refine ⟨?_, ?_, ?_, ?_⟩
      · have hext := toList_append_slots (compact s) hwf1 hb
          (List.replicate (n - ((compact s).capacity : Int)).toNat none) n.toNat hcap2
        exact hext.trans htl
      · show (compact s).count = s.count
        exact hcnt
      · intro _hlt
        show ((n.toNat : Nat) : Int) = n
        omega
      · intro hle
        exact absurd hle (by omega)
  · have hres : resize s n = compact s := by
      unfold resize
      rw [if_neg hn]
    rw [hres]
    exact ⟨htl, hcnt, fun hlt => absurd hlt hn, fun _ => rfl⟩

/-- C4 witness: the theorem applied to the concrete wrapped buffer of the
C3 witness, with a growing request (n = 9) and a non-growing request
(n = 3); the compacted capacity there is 6. -/
theorem C4_resize_witness :
    RingInv (push_front (push_front (CAinit [1, 2]) 9) 8 : CAState Nat) ∧
    toList (resize (push_front (push_front (CAinit [1, 2]) 9) 8 : CAState Nat) 9) =
      toList (push_front (push_front (CAinit [1, 2]) 9) 8 : CAState Nat) ∧
    ((resize (push_front (push_front (CAinit [1, 2]) 9) 8 : CAState Nat) 9).capacity : Int) = 9 ∧
    resize (push_front (push_front (CAinit [1, 2]) 9) 8 : CAState Nat) 3 =
      compact (push_front (push_front (CAinit [1, 2]) 9) 8 : CAState Nat) :=
  ⟨by decide,
   (C4_resize (push_front (push_front (CAinit [1, 2]) 9) 8) (by decide) 9).1,
   (C4_resize (push_front (push_front (CAinit [1, 2]) 9) 8) (by decide) 9).2.2.1 (by decide),
   (C4_resize (push_front (push_front (CAinit [1, 2]) 9) 8) (by decide) 3).2.2.2 (by decide)⟩

/-- Growing a full buffer does not move any live element relative to the
walk from front: the logical content is unchanged by double(). -/
theorem toList_double_full (s : CAState D) (h : RingInv s) (hfull : s.count = s.capacity) :
    toList (double s) = toList s := by
  have hc : 0 < s.count := by
    obtain ⟨-, hcap2, -⟩ := h
    omega
  have hrs := rear_spec s h hc
  obtain ⟨hlen, hcap2, hcnt, hfr, hre, -, -⟩ := h
  unfold double
  by_cases hfr2 : s.front ≤ s.rear
  · rw [if_pos hfr2]
    have hr1 := (hrs.1 hfr2).1
    have hr2 := (hrs.1 hfr2).2
    apply toList_eq_toList
    · rfl
    · intro i hi
      simp only at hi
      unfold elemAt
      simp only
      rw [Nat.mod_eq_of_lt (by omega), Nat.mod_eq_of_lt (by omega),
        getD_append_left _ _ _ _ (by omega)]
  · rw [if_neg hfr2]
    have hr3 := hrs.2 (by omega)
    apply toList_eq_toList
    · rfl
    · intro i hi
      simp only at hi
      unfold elemAt
      simp only
      by_cases hi2 : s.front + i < s.capacity
      · -- new position front + capacity + i lands in the dropped suffix
        rw [Nat.mod_eq_of_lt (by omega), Nat.mod_eq_of_lt hi2]
        rw [getD_append_right _ _ _ _ (by
          rw [List.length_append, List.length_take, List.length_replicate]
          omega)]
        rw [List.length_append, List.length_take, List.length_replicate]
        rw [getD_drop]
        congr 1
        omega
      · -- new position wraps to the kept prefix
        rw [Nat.mod_eq_sub_mod (by omega), Nat.mod_eq_of_lt (by omega),
          Nat.mod_eq_sub_mod (by omega), Nat.mod_eq_of_lt (by omega)]
        rw [getD_append_left _ _ _ _ (by
          rw [List.length_append, List.length_take, List.length_replicate]
          omega)]
        rw [getD_append_left _ _ _ _ (by rw [List.length_take]; omega)]
        rw [getD_take _ _ _ _ (by omega)]
        congr 1
        omega

/-- C2: a push on a full buffer (count = capacity) first grows it: the
capacity is exactly doubled, the logical sequence of live elements, the
count and rear are unchanged by the growth, and front is shifted by the
old capacity exactly in the wrap case rear < front (i.e. front > rear);
the push then completes at the doubled capacity.  A push on a non-full
buffer never changes the capacity. -/
theorem C2_growth (s : CAState D) (d : D) (h : RingInv s) :
    (s.count = s.capacity →
      (double s).capacity = 2 * s.capacity ∧
      toList (double s) = toList s ∧
      (double s).count = s.count ∧
      (double s).rear = s.rear ∧
      (double s).front = (if s.rear < s.front then s.front + s.capacity else s.front) ∧
      (push_rear s d).capacity = 2 * s.capacity ∧
      (push_front s d).capacity = 2 * s.capacity) ∧
    (s.count < s.capacity →
      (push_rear s d).capacity = s.capacity ∧ (push_front s d).capacity = s.capacity) := by
  constructor
  · intro hfull
    have hdc : (double s).capacity = 2 * s.capacity := by
      unfold double
      by_cases hfr2 : s.front ≤ s.rear
      · rw [if_pos hfr2]
      · rw [if_neg hfr2]
    refine ⟨hdc, toList_double_full s h hfull, ?_, ?_, ?_, ?_, ?_⟩
    · unfold double
      by_cases hfr2 : s.front ≤ s.rear
      · rw [if_pos hfr2]
      · rw [if_neg hfr2]
    · unfold double
      by_cases hfr2 : s.front ≤ s.rear
      · rw [if_pos hfr2]
      · rw [if_neg hfr2]
    · unfold double
      by_cases hfr2 : s.front ≤ s.rear
      · rw [if_pos hfr2, if_neg (by omega)]
      · rw [if_neg hfr2, if_pos (by omega)]
    · show (if s.count = s.capacity then double s else s).capacity = 2 * s.capacity
      rw [if_pos hfull]
      exact hdc
    · show (if s.count = s.capacity then double s else s).capacity = 2 * s.capacity
      rw [if_pos hfull]
      exact hdc
  · intro hlt
    constructor
    · show (if s.count = s.capacity then double s else s).capacity = s.capacity
      rw [if_neg (by omega)]
    · show (if s.count = s.capacity then double s else s).capacity = s.capacity
      rw [if_neg (by omega)]

/-- C2 witness: the theorem applied to the full wrapped buffer of the C3
witness (count = capacity = 4, front = 3 > rear = 2) and, for the
non-full clause, to CA(1, 2) (count 2 < capacity 4). -/
theorem C2_growth_witness :
    RingInv (push_front (push_front (CAinit [1, 2]) 9) 8 : CAState Nat) ∧
    (push_front (push_front (CAinit [1, 2]) 9) 8 : CAState Nat).count =
      (push_front (push_front (CAinit [1, 2]) 9) 8 : CAState Nat).capacity ∧
    toList (double (push_front (push_front (CAinit [1, 2]) 9) 8 : CAState Nat)) =
      toList (push_front (push_front (CAinit [1, 2]) 9) 8 : CAState Nat) ∧
    (CAinit [1, 2] : CAState Nat).count < (CAinit [1, 2] : CAState Nat).capacity ∧
    (push_rear (CAinit [1, 2] : CAState Nat) 7).capacity = (CAinit [1, 2] : CAState Nat).capacity :=
  ⟨by decide, by decide,
   (((C2_growth (push_front (push_front (CAinit [1, 2]) 9) 8) 7 (by decide)).1) (by decide)).2.1,
   by decide,
   ((C2_growth (CAinit [1, 2] : CAState Nat) 7 (by decide)).2 (by decide)).1⟩

/-- Correctness of the forward-iteration loop: starting k logical steps
past front with enough fuel, it yields exactly the remaining count - k
logical slots in order. -/
theorem iterF_spec (s : CAState D) (h : RingInv s) (hc : 0 < s.count) :
    ∀ fuel k, k < s.count → s.count - k ≤ fuel →
      iterF s.list s.capacity s.rear fuel ((s.front + k) % s.capacity) =
        (List.range' k (s.count - k)).map (fun i => elemAt s i) := by
  have hrear := (h.2.2.2.2.2.1 hc).1
  have hcnt : s.count ≤ s.capacity := h.2.2.1
  have hcap : 0 < s.capacity := by
    have := h.2.1
    omega
  have key : ∀ k2, k2 < s.count → ((s.front + k2) % s.capacity = s.rear ↔ k2 = s.count - 1) := by
    intro k2 hk2
    constructor
    · intro he
      have h2 : (s.front + k2) % s.capacity = (s.front + (s.count - 1)) % s.capacity := by
        rw [he, hrear]
        congr 1
        omega
      exact mod_add_inj (by omega) (by omega) h2
    · intro he
      subst he
      rw [hrear]
      congr 1
      omega
  intro fuel
  induction fuel with
  | zero =>
    intro k hk hf
    omega
  | succ f ih =>
    intro k hk hf
    simp only [iterF]
    by_cases hk1 : k = s.count - 1
    · subst hk1
      rw [if_pos ((key _ hk).mpr rfl)]
      have h1 : s.count - (s.count - 1) = 1 := by omega
      rw [h1]
      simp [elemAt]
    · rw [if_neg (fun he => hk1 ((key _ hk).mp he))]
      have hstep : ((s.front + k) % s.capacity + 1) % s.capacity =
          (s.front + (k + 1)) % s.capacity := by
        rw [Nat.mod_add_mod]
        congr 1
      rw [hstep, ih (k + 1) (by omega) (by omega)]
      have hr : s.count - k = (s.count - (k + 1)) + 1 := by omega
      rw [hr, List.range'_succ]
      simp [elemAt]

theorem iterList_eq_toList (s : CAState D) (h : RingInv s) : iterList s = toList s := by
  unfold iterList
  by_cases hc : 0 < s.count
  · rw [if_pos hc]
    have hfr : s.front < s.capacity := h.2.2.2.1
    have h0 : s.front = (s.front + 0) % s.capacity := by
      rw [Nat.add_zero, Nat.mod_eq_of_lt hfr]
    rw [h0, iterF_spec s h hc s.capacity 0 hc (by
      have := h.2.2.1
      omega)]
    unfold toList
    rw [Nat.sub_zero, ← List.range_eq_range']
  · rw [if_neg hc]
    unfold toList
    have h2 : s.count = 0 := by omega
    rw [h2]
    rfl

/-- Correctness of the reverse-iteration loop: starting at the slot k
logical steps past front with enough fuel, it yields the first k + 1
logical slots in reverse order. -/
theorem iterRevF_spec (s : CAState D) (h : RingInv s) (hc : 0 < s.count) :
    ∀ fuel k, k < s.count → k + 1 ≤ fuel →
      iterRevF s.list s.capacity s.front fuel ((s.front + k) % s.capacity) =
        ((List.range (k + 1)).map (fun i => elemAt s i)).reverse := by
  have hcnt : s.count ≤ s.capacity := h.2.2.1
  have hfr : s.front < s.capacity := h.2.2.2.1
  have key : ∀ k2, k2 < s.count → ((s.front + k2) % s.capacity = s.front ↔ k2 = 0) := by
    intro k2 hk2
    constructor
    · intro he
      have h2 : (s.front + k2) % s.capacity = (s.front + 0) % s.capacity := by
        rw [Nat.add_zero, Nat.mod_eq_of_lt hfr]
        exact he
      exact mod_add_inj (by omega) (by omega) h2
    · intro he
      subst he
      rw [Nat.add_zero, Nat.mod_eq_of_lt hfr]
  intro fuel
  induction fuel with
  | zero =>
    intro k hk hf
    omega
  | succ f ih =>
    intro k hk hf
    simp only [iterRevF]
    by_cases hk0 : k = 0
    · subst hk0
      rw [if_pos ((key _ hk).mpr rfl)]
      rw [show (List.range 1) = [0] from rfl]
      simp [elemAt]
    · rw [if_neg (fun he => hk0 ((key _ hk).mp he))]
      have hstep : ((s.front + k) % s.capacity + s.capacity - 1) % s.capacity =
          (s.front + (k - 1)) % s.capacity := by
        have h1 : (s.front + k) % s.capacity + s.capacity - 1 =
            (s.front + k) % s.capacity + (s.capacity - 1) := by omega
        rw [h1, Nat.mod_add_mod]
        have h2 : s.front + k + (s.capacity - 1) = (s.front + (k - 1)) + s.capacity := by omega
        rw [h2, Nat.add_mod_right]
      rw [hstep, ih (k - 1) (by omega) (by omega)]
      have hk1 : k - 1 + 1 = k := by omega
      rw [hk1]
      rw [show k + 1 = (k : Nat) + 1 from rfl, List.range_succ]
      simp [elemAt]

theorem iterRev_eq_toList_reverse (s : CAState D) (h : RingInv s) :
    iterRev s = (toList s).reverse := by
  unfold iterRev
  by_cases hc : 0 < s.count
  · rw [if_pos hc]
    have hrear := (h.2.2.2.2.2.1 hc).1
    have hre : s.rear = (s.front + (s.count - 1)) % s.capacity := by
      rw [hrear]
      congr 1
      omega
    rw [hre, iterRevF_spec s h hc s.capacity (s.count - 1) (by omega) (by
      have := h.2.2.1
      omega)]
    unfold toList
    have h1 : s.count - 1 + 1 = s.count := by omega
    rw [h1]
  · rw [if_neg hc]
    unfold toList
    have h2 : s.count = 0 := by omega
    rw [h2]
    rfl

/-- C7: forward iteration yields exactly the count live logical slots, once
each, in logical front-to-back order, and reverse iteration yields the same
slots in back-to-front order. -/
theorem C7_iteration (s : CAState D) (h : RingInv s) :
    iterList s = toList s ∧ iterRev s = (toList s).reverse :=
  ⟨iterList_eq_toList s h, iterRev_eq_toList_reverse s h⟩

/-- C7 witness: the theorem applied to the concrete wrapped buffer of the
C3 witness (logical content 8, 9, 1, 2 wrapped across the storage end). -/
theorem C7_iteration_witness :
    RingInv (push_front (push_front (CAinit [1, 2]) 9) 8 : CAState Nat) ∧
    iterList (push_front (push_front (CAinit [1, 2]) 9) 8 : CAState Nat) =
      toList (push_front (push_front (CAinit [1, 2]) 9) 8 : CAState Nat) ∧
    iterRev (push_front (push_front (CAinit [1, 2]) 9) 8 : CAState Nat) =
      (toList (push_front (push_front (CAinit [1, 2]) 9) 8 : CAState Nat)).reverse :=
  ⟨by decide,
   (C7_iteration (push_front (push_front (CAinit [1, 2]) 9) 8) (by decide)).1,
   (C7_iteration (push_front (push_front (CAinit [1, 2]) 9) 8) (by decide)).2⟩

/-- Folding a some-lifted operator over a run of some-valued slots computes
the plain left fold of the underlying values. -/
theorem foldl_lift (f : D → D → D) (F : Option D → Option D → Option D)
    (hF : ∀ a b, F (some a) (some b) = some (f a b)) :
    ∀ (l : List D) (k : Nat) (a : D) (G : Nat → Option D),
      (∀ j, j < l.length → G (k + j) = l.get? j) →
      (List.range' k l.length).foldl (fun acc i => F acc (G i)) (some a) =
        some (l.foldl f a) := by
  intro l
  induction l with
  | nil =>
    intro k a G hG
    simp
  | cons b bs ih =>
    intro k a G hG
    have hGk : G k = some b := by
      have h0 := hG 0 (by simp)
      simpa using h0
    rw [List.length_cons, List.range'_succ]
    simp only [List.foldl_cons]
    rw [hGk, hF]
    apply ih
    intro j hj
    have hj1 := hG (j + 1) (by simpa using Nat.succ_lt_succ hj)
    rw [show k + 1 + j = k + (j + 1) from by omega]
    simpa using hj1

/-- C9: foldL without an initial value fails with the empty-fold error on
an empty buffer, and on a buffer holding elements e, rest... returns the
left-associated reduction of the elements seeded with the first element;
foldL with an initial value returns it unchanged on an empty buffer. -/
theorem C9_foldL {L : Type} (s : CAState D) (f : D → D → D)
    (F : Option D → Option D → Option D)
    (hF : ∀ a b, F (some a) (some b) = some (f a b))
    (g : L → Option D → L) :
    (s.count = 0 → foldL_noinit F s = .error .emptyFold) ∧
    (∀ e rest, toList s = (e :: rest).map some →
      foldL_noinit F s = .ok (some (rest.foldl f e))) ∧
    (∀ init : L, s.count = 0 → foldL_init g init s = init) := by
  refine ⟨?_, ?_, ?_⟩
  · intro h0
    unfold foldL_noinit
    rw [if_pos h0]
  · intro e rest h
    have hlen : s.count = rest.length + 1 := by
      have h1 := toList_length s
      rw [h] at h1
      simpa using h1.symm
    have he0 : elemAt s 0 = some e := by
      have h1 := toList_getD s 0 (by omega)
      rw [h] at h1
      simpa using h1.symm
    unfold foldL_noinit
    rw [if_neg (by omega), he0]
    have hrest : s.count - 1 = rest.length := by omega
    rw [hrest]
    have hok := foldl_lift f F hF rest 1 e (fun i => elemAt s i) ?_
    · rw [hok]
    · intro j hj
      have h1 := toList_getD s (1 + j) (by omega)
      rw [h] at h1
      show elemAt s (1 + j) = rest.get? j
      rw [← h1]
      rw [show 1 + j = j + 1 from by omega]
      show ((some e :: rest.map some).getD (j + 1) none) = rest.get? j
      rw [List.getD_cons_succ, getD_map_some]
  · intro init h0
    unfold foldL_init
    rw [if_pos h0]

/-- C9 witness: folding addition over CA(1, 2, 3, 4, 5) without an initial
value gives 15; on the empty CA() the no-initial fold fails with the
empty-fold error and the with-initial fold returns the initial value 42
unchanged. -/
theorem C9_foldL_witness :
    toList (CAinit [1, 2, 3, 4, 5] : CAState Nat) = (1 :: [2, 3, 4, 5]).map some ∧
    foldL_noinit (fun x y => match x, y with
      | some u, some v => some (u + v)
      | _, _ => (none : Option Nat)) (CAinit [1, 2, 3, 4, 5]) = .ok (some 15) ∧
    (CAinit ([] : List Nat)).count = 0 ∧
    foldL_noinit (fun x y => match x, y with
      | some u, some v => some (u + v)
      | _, _ => (none : Option Nat)) (CAinit ([] : List Nat)) = .error .emptyFold ∧
    foldL_init (fun acc x => acc + x.getD 0) 42 (CAinit ([] : List Nat)) = 42 :=
  ⟨by decide,
   (C9_foldL (CAinit [1, 2, 3, 4, 5] : CAState Nat) (fun a b => a + b)
      (fun x y => match x, y with
        | some u, some v => some (u + v)
        | _, _ => (none : Option Nat)) (fun a b => rfl)
      (fun acc x => acc + x.getD 0)).2.1 1 [2, 3, 4, 5] (by decide),
   by decide,
   (C9_foldL (CAinit ([] : List Nat)) (fun a b => a + b)
      (fun x y => match x, y with
        | some u, some v => some (u + v)
        | _, _ => (none : Option Nat)) (fun a b => rfl)
      (fun acc x => acc + x.getD 0)).1 (by decide),
   (C9_foldL (CAinit ([] : List Nat)) (fun a b => a + b)
      (fun x y => match x, y with
        | some u, some v => some (u + v)
        | _, _ => (none : Option Nat)) (fun a b => rfl)
      (fun acc x => acc + x.getD 0)).2.2 42 (by decide)⟩
